import Mathlib

/-!
Verification of the line-record parser in `convert_series.py`.

The program reads text lines, strips each line, skips blank lines,
splits at the first occurrence of the separator " — " (space, em dash,
space), parses the trailing segment with Python's `int`, and collects
records `{id, title, year, rating}` where `id` is the decimal string of
the 1-based line number (counting blank lines) and `rating` is 0.

Strings are embedded as `List Char`.  `str.strip()` is modelled with the
ASCII whitespace characters; Python's `int` is modelled for ASCII digits
with its optional sign and its underscore digit separators.
-/

namespace ConvertSeries

/-- Whitespace as stripped by `str.strip()`, restricted to ASCII. -/
def isPySpace (c : Char) : Bool :=
  c = ' ' || c = '\t' || c = '\n' || c = '\r' || c = '\x0b' || c = '\x0c'

/-- Remove leading whitespace (`str.lstrip()`). -/
def stripLeftL (s : List Char) : List Char :=
  s.dropWhile isPySpace

/-- Remove trailing whitespace (`str.rstrip()`). -/
def stripRightL (s : List Char) : List Char :=
  (s.reverse.dropWhile isPySpace).reverse

/-- `str.strip()`: remove leading and trailing whitespace. -/
def pyStrip (s : List Char) : List Char :=
  stripRightL (stripLeftL s)

/-- The separator `" — "`: space, em dash (U+2014), space. -/
def sepL : List Char := [' ', '—', ' ']

/-- `line.split(" — ", 1)` combined with the `" — " in line` test:
`some (a, b)` when the separator occurs, splitting around its first
occurrence; `none` when it does not occur. -/
def findSep : List Char → Option (List Char × List Char)
  | [] => none
  | c :: rest =>
    if sepL.isPrefixOf (c :: rest) then some ([], (c :: rest).drop 3)
    else (findSep rest).map fun p => (c :: p.1, p.2)

/-- Digits continued: after a first digit, Python's `int` accepts further
digits with single underscores allowed only between digits. -/
def digitsTail : List Char → Bool
  | [] => true
  | '_' :: c :: rest => c.isDigit && digitsTail rest
  | c :: rest => c.isDigit && digitsTail rest

/-- Nonempty digit body of a Python `int` literal: a digit followed by
digits and single inter-digit underscores. -/
def validDigits : List Char → Bool
  | [] => false
  | c :: rest => c.isDigit && digitsTail rest

/-- Numeric value of a list of decimal digits. -/
def digitsVal (ds : List Char) : Nat :=
  ds.foldl (fun a c => a * 10 + (c.toNat - '0'.toNat)) 0

/-- Drop the underscore digit separators. -/
def stripUnders (ds : List Char) : List Char :=
  ds.filter (fun c => c != '_')

/-- Whether a whitespace-stripped string is accepted by Python's
`int`: an optional sign followed by a valid digit body. -/
def okIntCore : List Char → Bool
  | '+' :: rest => validDigits rest
  | '-' :: rest => validDigits rest
  | s => validDigits s

/-- Value Python's `int` returns on an accepted, stripped string. -/
def intValCore : List Char → Int
  | '+' :: rest => (digitsVal (stripUnders rest) : Int)
  | '-' :: rest => -(digitsVal (stripUnders rest) : Int)
  | s => (digitsVal (stripUnders s) : Int)

/-- `int(s)` for base 10, as used in the `try`/`except ValueError` block:
`some` the parsed value, `none` when `ValueError` is raised.  Python
tolerates surrounding whitespace, an optional sign, and underscores
between digits (ASCII digits modelled). -/
def pyInt (s : List Char) : Option Int :=
  if okIntCore (pyStrip s) then some (intValCore (pyStrip s)) else none

/-- One output record, fields as in the dict literal of the source. -/
structure Record where
  id : String
  title : List Char
  year : Option Int
  rating : Int
deriving DecidableEq, Repr

/-- The body of the loop for a non-blank line: `s` is the already
stripped line, `i` the 1-based line number.  Mirrors lines 11-27 of
`convert_series.py`. -/
def mkRecord (i : Nat) (s : List Char) : Record :=
  match findSep s with
  | some (a, b) => ⟨toString i, pyStrip a, pyInt (pyStrip b), 0⟩
  | none => ⟨toString i, s, none, 0⟩

/-- One iteration of the `for i, line in enumerate(f, start=1)` loop:
the state is the line counter and the `items` list appended to. -/
def loopBody (st : Nat × List Record) (l : List Char) : Nat × List Record :=
  let s := pyStrip l
  if s = [] then (st.1 + 1, st.2)
  else (st.1 + 1, st.2 ++ [mkRecord st.1 s])

/-- The whole loop: fold the body over the lines starting from counter 1
and an empty `items`, returning the accumulated records. -/
def convert (lines : List (List Char)) : List Record :=
  (lines.foldl loopBody (1, [])).2

/-- Structural recursion equivalent of `convert`, for proofs. -/
def convertFrom (i : Nat) : List (List Char) → List Record
  | [] => []
  | l :: ls =>
    if pyStrip l = [] then convertFrom (i + 1) ls
    else mkRecord i (pyStrip l) :: convertFrom (i + 1) ls

/-- `enumerate(lines, start=i)`. -/
def enumFrom (i : Nat) : List (List Char) → List (Nat × List Char)
  | [] => []
  | l :: ls => (i, l) :: enumFrom (i + 1) ls

/-- 1-based positions (counting every line) of the non-blank lines. -/
def nonBlankPosFrom (i : Nat) : List (List Char) → List Nat
  | [] => []
  | l :: ls =>
    if pyStrip l = [] then nonBlankPosFrom (i + 1) ls
    else i :: nonBlankPosFrom (i + 1) ls

/-- Integer parse following the spec's words for comparison with the
code's `pyInt`: "an optionally-signed base-10 integer with no other
characters tolerated beyond what stripping removed". -/
def specStrictInt : List Char → Option Int
  | '+' :: rest =>
    if !rest.isEmpty && rest.all Char.isDigit then some ((digitsVal rest : Nat) : Int) else none
  | '-' :: rest =>
    if !rest.isEmpty && rest.all Char.isDigit then some (-((digitsVal rest : Nat) : Int)) else none
  | t =>
    if !t.isEmpty && t.all Char.isDigit then some ((digitsVal t : Nat) : Int) else none

/-- The program's top level with the input source embedded as `Except`
(opening and decoding either deliver the whole line sequence or fail):
the result is the process exit status paired with the emitted record
array, `none` when nothing is written.  `json.dump` runs only after the
loop finishes, so a read failure produces no partial output. -/
def run (source : Except String (List (List Char))) : Nat × Option (List Record) :=
  match source with
  | Except.error _ => (1, none)
  | Except.ok lines => (0, some (convert lines))

/-! ### Helper lemmas -/

/-- A successful `findSep` exhibits the separator occurrence. -/
theorem findSep_eq_append {s a b : List Char} (h : findSep s = some (a, b)) :
    s = a ++ sepL ++ b := by
  induction s generalizing a b with
  | nil => simp [findSep] at h
  | cons c rest ih =>
    rw [findSep] at h
    split at h
    · rename_i hpre
      simp only [Option.some.injEq, Prod.mk.injEq] at h
      obtain ⟨ha, hb⟩ := h
      subst ha; subst hb
      have hp : sepL <+: (c :: rest) := List.isPrefixOf_iff_prefix.mp hpre
      have := List.prefix_iff_eq_append.mp hp
      simpa [sepL] using this.symm
    · rename_i hpre
      obtain ⟨⟨a₀, b₀⟩, hr, heq⟩ := Option.map_eq_some'.mp h
      simp only [Prod.mk.injEq] at heq
      obtain ⟨ha, hb⟩ := heq
      subst ha; subst hb
      simp [ih hr]

/-- `findSep` splits at the first occurrence: any other occurrence has a
prefix at least as long. -/
theorem findSep_first {s a b : List Char} (h : findSep s = some (a, b)) :
    ∀ x y, s = x ++ sepL ++ y → a.length ≤ x.length := by
  induction s generalizing a b with
  | nil => simp [findSep] at h
  | cons c rest ih =>
    rw [findSep] at h
    split at h
    · rename_i hpre
      simp only [Option.some.injEq, Prod.mk.injEq] at h
      obtain ⟨ha, _⟩ := h
      subst ha
      intro x y _
      simp
    · rename_i hpre
      obtain ⟨⟨a₀, b₀⟩, hr, heq⟩ := Option.map_eq_some'.mp h
      simp only [Prod.mk.injEq] at heq
      obtain ⟨ha, hb⟩ := heq
      subst ha; subst hb
      intro x y hxy
      cases x with
      | nil =>
        exfalso
        apply hpre
        rw [List.isPrefixOf_iff_prefix]
        exact ⟨y, by simpa using hxy.symm⟩
      | cons d x' =>
        simp only [List.cons_append, List.cons.injEq] at hxy
        have := ih hr x' y hxy.2
        simpa using Nat.succ_le_succ this

/-- A failing `findSep` means the separator occurs nowhere. -/
theorem findSep_none_no_occ {s : List Char} (h : findSep s = none) :
    ∀ x y, s ≠ x ++ sepL ++ y := by
  induction s with
  | nil =>
    intro x y hxy
    cases x <;> simp [sepL] at hxy
  | cons c rest ih =>
    rw [findSep] at h
    split at h
    · simp at h
    · rename_i hpre
      have hr : findSep rest = none := by
        cases hfr : findSep rest with
        | none => rfl
        | some p => rw [hfr] at h; simp at h
      intro x y hxy
      cases x with
      | nil =>
        apply hpre
        rw [List.isPrefixOf_iff_prefix]
        exact ⟨y, by simpa using hxy.symm⟩
      | cons d x' =>
        simp only [List.cons_append, List.cons.injEq] at hxy
        exact ih hr x' y hxy.2

/-- The head surviving a left strip is not whitespace. -/
theorem head_stripLeft {s : List Char} {c : Char}
    (h : (stripLeftL s).head? = some c) : isPySpace c = false := by
  induction s with
  | nil => simp [stripLeftL] at h
  | cons x xs ih =>
    rw [stripLeftL, List.dropWhile_cons] at h
    split at h
    · exact ih h
    · rename_i hx
      simp only [List.head?_cons, Option.some.injEq] at h
      subst h
      simpa using hx

/-- A right strip returns a prefix of its input. -/
theorem stripRight_prefix (s : List Char) : stripRightL s <+: s := by
  have h : s.reverse.dropWhile isPySpace <:+ s.reverse :=
    List.dropWhile_suffix isPySpace
  have h2 := List.reverse_prefix.mpr h
  simpa [stripRightL] using h2

/-- The head of a stripped string is not whitespace. -/
theorem head_pyStrip {s : List Char} {c : Char}
    (h : (pyStrip s).head? = some c) : isPySpace c = false := by
  obtain ⟨t, ht⟩ := stripRight_prefix (stripLeftL s)
  cases hp : pyStrip s with
  | nil => rw [hp] at h; simp at h
  | cons d u =>
    rw [hp] at h
    simp only [List.head?_cons, Option.some.injEq] at h
    subst h
    rw [pyStrip] at hp
    rw [hp] at ht
    exact head_stripLeft (show (stripLeftL s).head? = some d by rw [← ht]; simp)

/-- A string whose head is not whitespace strips to a nonempty string. -/
theorem pyStrip_ne_nil {a : List Char} {c : Char} (h : a.head? = some c)
    (hc : isPySpace c = false) : pyStrip a ≠ [] := by
  cases a with
  | nil => simp at h
  | cons d u =>
    simp only [List.head?_cons, Option.some.injEq] at h
    have hd : isPySpace d = false := h ▸ hc
    have hstep : stripLeftL (d :: u) = d :: u := by
      rw [stripLeftL, List.dropWhile_cons]
      simp [hd]
    rw [pyStrip, hstep]
    intro hnil
    rw [stripRightL] at hnil
    have hall : ∀ x ∈ (d :: u).reverse, isPySpace x = true :=
      List.dropWhile_eq_nil_iff.mp (by simpa using hnil)
    have := hall d (by simp)
    rw [hd] at this
    exact Bool.false_ne_true this

/-- `mkRecord` in the separator branch. -/
theorem mkRecord_some {i : Nat} {s a b : List Char}
    (h : findSep s = some (a, b)) :
    mkRecord i s = ⟨toString i, pyStrip a, pyInt (pyStrip b), 0⟩ := by
  unfold mkRecord
  rw [h]

/-- `mkRecord` in the no-separator branch. -/
theorem mkRecord_none {i : Nat} {s : List Char} (h : findSep s = none) :
    mkRecord i s = ⟨toString i, s, none, 0⟩ := by
  unfold mkRecord
  rw [h]

/-- The items accumulated by the fold are the accumulator followed by the
structurally computed records. -/
theorem foldl_loopBody_snd (ls : List (List Char)) :
    ∀ (i : Nat) (acc : List Record),
      (List.foldl loopBody (i, acc) ls).2 = acc ++ convertFrom i ls := by
  induction ls with
  | nil =>
    intro i acc
    simp [convertFrom]
  | cons l ls ih =>
    intro i acc
    by_cases hb : pyStrip l = []
    · have hl : loopBody (i, acc) l = (i + 1, acc) := by simp [loopBody, hb]
      rw [List.foldl_cons, hl, ih]
      simp [convertFrom, hb]
    · have hl : loopBody (i, acc) l = (i + 1, acc ++ [mkRecord i (pyStrip l)]) := by
        simp [loopBody, hb]
      rw [List.foldl_cons, hl, ih]
      simp [convertFrom, hb]

/-- The imperative fold agrees with the structural recursion. -/
theorem convert_eq_convertFrom (lines : List (List Char)) :
    convert lines = convertFrom 1 lines := by
  simpa [convert] using foldl_loopBody_snd lines 1 []

/-- The `id` field is the decimal string of the line number. -/
theorem mkRecord_id (i : Nat) (s : List Char) : (mkRecord i s).id = toString i := by
  cases h : findSep s with
  | none => rw [mkRecord_none h]
  | some p =>
    obtain ⟨a, b⟩ := p
    rw [mkRecord_some h]

/-- The `rating` field is always 0. -/
theorem mkRecord_rating (i : Nat) (s : List Char) : (mkRecord i s).rating = 0 := by
  cases h : findSep s with
  | none => rw [mkRecord_none h]
  | some p =>
    obtain ⟨a, b⟩ := p
    rw [mkRecord_some h]

/-- The `id` strings are the decimal strings of the non-blank positions. -/
theorem map_id_convertFrom (ls : List (List Char)) :
    ∀ i, (convertFrom i ls).map Record.id
      = (nonBlankPosFrom i ls).map (fun n => toString n) := by
  induction ls with
  | nil => intro i; simp [convertFrom, nonBlankPosFrom]
  | cons l ls ih =>
    intro i
    by_cases hb : pyStrip l = []
    · simp [convertFrom, nonBlankPosFrom, hb, ih]
    · simp [convertFrom, nonBlankPosFrom, hb, ih, mkRecord_id]

/-- Positions start no earlier than the starting counter. -/
theorem nonBlankPos_lb (ls : List (List Char)) :
    ∀ i n, n ∈ nonBlankPosFrom i ls → i ≤ n := by
  induction ls with
  | nil => intro i n h; simp [nonBlankPosFrom] at h
  | cons l ls ih =>
    intro i n h
    by_cases hb : pyStrip l = []
    · simp only [nonBlankPosFrom, if_pos hb] at h
      exact Nat.le_of_succ_le (ih (i + 1) n h)
    · simp only [nonBlankPosFrom, if_neg hb, List.mem_cons] at h
      rcases h with rfl | h
      · exact Nat.le_refl n
      · exact Nat.le_of_succ_le (ih (i + 1) n h)

/-- The non-blank positions are strictly increasing. -/
theorem nonBlankPos_pairwise (ls : List (List Char)) :
    ∀ i, List.Pairwise (fun a b => a < b) (nonBlankPosFrom i ls) := by
  induction ls with
  | nil => intro i; simp [nonBlankPosFrom]
  | cons l ls ih =>
    intro i
    by_cases hb : pyStrip l = []
    · simpa [nonBlankPosFrom, if_pos hb] using ih (i + 1)
    · simp only [nonBlankPosFrom, if_neg hb]
      refine List.pairwise_cons.mpr ⟨?_, ih (i + 1)⟩
      intro n hn
      exact Nat.lt_of_succ_le (nonBlankPos_lb ls (i + 1) n hn)

/-- The records are exactly the non-blank lines of the enumeration,
mapped through `mkRecord`, in order. -/
theorem convertFrom_enum (ls : List (List Char)) :
    ∀ i, convertFrom i ls
      = ((enumFrom i ls).filter (fun p => !(pyStrip p.2).isEmpty)).map
          (fun p => mkRecord p.1 (pyStrip p.2)) := by
  induction ls with
  | nil => intro i; simp [convertFrom, enumFrom]
  | cons l ls ih =>
    intro i
    by_cases hb : pyStrip l = []
    · simp [convertFrom, enumFrom, hb, List.filter_cons, ih]
    · simp [convertFrom, enumFrom, hb, List.filter_cons, ih,
        List.isEmpty_iff]

/-- One record per non-blank line. -/
theorem length_convertFrom (ls : List (List Char)) :
    ∀ i, (convertFrom i ls).length = ls.countP (fun l => !(pyStrip l).isEmpty) := by
  induction ls with
  | nil => intro i; simp [convertFrom]
  | cons l ls ih =>
    intro i
    by_cases hb : pyStrip l = []
    · simp [convertFrom, hb, List.countP_cons, ih]
    · simp [convertFrom, hb, List.countP_cons, ih, List.isEmpty_iff]

/-- A string whose head is not whitespace needs no left strip. -/
theorem stripLeft_eq_self {x : List Char}
    (h : ∀ c, x.head? = some c → isPySpace c = false) : stripLeftL x = x := by
  cases x with
  | nil => rfl
  | cons d u =>
    have hd := h d (by simp)
    rw [stripLeftL, List.dropWhile_cons]
    simp [hd]

/-- Right stripping is idempotent. -/
theorem stripRight_idem (x : List Char) :
    stripRightL (stripRightL x) = stripRightL x := by
  simp only [stripRightL, List.reverse_reverse]
  rw [List.dropWhile_idempotent]

/-- `str.strip()` is idempotent. -/
theorem pyStrip_idem (s : List Char) : pyStrip (pyStrip s) = pyStrip s := by
  have h1 : stripLeftL (pyStrip s) = pyStrip s :=
    stripLeft_eq_self (fun c hc => head_pyStrip hc)
  show stripRightL (stripLeftL (pyStrip s)) = pyStrip s
  rw [h1]
  show stripRightL (stripRightL (stripLeftL s)) = pyStrip s
  rw [stripRight_idem]
  rfl

/-- Left stripping stops inside `t` when `t` is not all whitespace. -/
theorem stripLeft_append {t : List Char} (h : stripLeftL t ≠ []) (u : List Char) :
    stripLeftL (t ++ u) = stripLeftL t ++ u := by
  induction t with
  | nil => exact absurd rfl h
  | cons c t' ih =>
    by_cases hc : isPySpace c = true
    · have h' : stripLeftL t' ≠ [] := by
        rwa [stripLeftL, List.dropWhile_cons, if_pos hc] at h
      have e1 : stripLeftL ((c :: t') ++ u) = stripLeftL (t' ++ u) := by
        simp only [List.cons_append, stripLeftL, List.dropWhile_cons, if_pos hc]
      have e2 : stripLeftL (c :: t') = stripLeftL t' := by
        simp only [stripLeftL, List.dropWhile_cons, if_pos hc]
      rw [e1, ih h', e2]
    · have e1 : stripLeftL ((c :: t') ++ u) = c :: (t' ++ u) := by
        simp only [List.cons_append, stripLeftL, List.dropWhile_cons, if_neg hc]
      have e2 : stripLeftL (c :: t') = c :: t' := by
        simp only [stripLeftL, List.dropWhile_cons, if_neg hc]
      rw [e1, e2]
      simp

/-- Right stripping removes a trailing all-whitespace block. -/
theorem stripRight_ws_append {x w : List Char}
    (hw : ∀ c ∈ w, isPySpace c = true) : stripRightL (x ++ w) = stripRightL x := by
  simp only [stripRightL, List.reverse_append]
  rw [List.dropWhile_append_of_pos]
  intro a ha
  exact hw a (List.mem_reverse.mp ha)

/-- Right stripping a string ending in the separator eats exactly the
separator's final space. -/
theorem stripRight_sepL (y : List Char) :
    stripRightL (y ++ sepL) = y ++ [' ', '—'] := by
  simp only [stripRightL, sepL, List.reverse_append]
  have e : ([' ', '—', ' '] : List Char).reverse ++ y.reverse
      = ' ' :: '—' :: ' ' :: y.reverse := rfl
  rw [e, List.dropWhile_cons, if_pos (by decide), List.dropWhile_cons,
    if_neg (by decide)]
  simp

/-- All ratings produced by the structural recursion are 0. -/
theorem rating_convertFrom (ls : List (List Char)) :
    ∀ i r, r ∈ convertFrom i ls → r.rating = 0 := by
  induction ls with
  | nil => intro i r h; simp [convertFrom] at h
  | cons l ls ih =>
    intro i r h
    by_cases hb : pyStrip l = []
    · simp only [convertFrom, if_pos hb] at h
      exact ih (i + 1) r h
    · simp only [convertFrom, if_neg hb, List.mem_cons] at h
      rcases h with rfl | h
      · exact mkRecord_rating i (pyStrip l)
      · exact ih (i + 1) r h

/-- A record built from a non-blank stripped line has a nonempty title. -/
theorem mkRecord_title_ne {i : Nat} {l : List Char} (hb : pyStrip l ≠ []) :
    (mkRecord i (pyStrip l)).title ≠ [] := by
  cases hfs : findSep (pyStrip l) with
  | none =>
    rw [mkRecord_none hfs]
    exact hb
  | some p =>
    obtain ⟨a, b⟩ := p
    rw [mkRecord_some hfs]
    have hsp := findSep_eq_append hfs
    cases a with
    | nil =>
      exfalso
      have hh : (pyStrip l).head? = some ' ' := by rw [hsp]; simp [sepL]
      have := head_pyStrip hh
      simp [isPySpace] at this
    | cons d a' =>
      have hh : (pyStrip l).head? = some d := by rw [hsp]; simp
      have hd := head_pyStrip hh
      exact pyStrip_ne_nil (by simp) hd

/-- All titles produced by the structural recursion are nonempty. -/
theorem title_convertFrom (ls : List (List Char)) :
    ∀ i r, r ∈ convertFrom i ls → r.title ≠ [] := by
  induction ls with
  | nil => intro i r h; simp [convertFrom] at h
  | cons l ls ih =>
    intro i r h
    by_cases hb : pyStrip l = []
    · simp only [convertFrom, if_pos hb] at h
      exact ih (i + 1) r h
    · simp only [convertFrom, if_neg hb, List.mem_cons] at h
      rcases h with rfl | h
      · exact mkRecord_title_ne hb
      · exact ih (i + 1) r h

/-! ### Claims -/

/-- Claim C1, counterexample: on the line "Foo — 2_008" the stripped
trailing segment "2_008" is not an optionally-signed base-10 integer with
no other characters tolerated, yet the code sets year to 2008 rather than
null, because Python's `int` accepts underscores between digits. -/
theorem c1_strict_parse_counterexample :
    specStrictInt (pyStrip ("2_008".toList)) = none
    ∧ (mkRecord 1 (pyStrip ("Foo — 2_008".toList))).year = some 2008 := by
  decide

/-- Claim C1 as amended: for a line whose stripped text contains the
separator, the parser splits at the first occurrence only, strips both
parts independently, and sets year to `pyInt` of the trailing segment,
where `pyInt` follows Python's `int`: an optionally-signed base-10
integer, additionally tolerating single underscores between digits; year
is the parsed integer when that parse succeeds and null when it fails,
with no error raised. -/
theorem c1_sep_split_year (i : Nat) (line a b : List Char)
    (h : findSep (pyStrip line) = some (a, b)) :
    pyStrip line = a ++ sepL ++ b
    ∧ (∀ x y, pyStrip line = x ++ sepL ++ y → a.length ≤ x.length)
    ∧ (mkRecord i (pyStrip line)).title = pyStrip a
    ∧ (mkRecord i (pyStrip line)).year = pyInt (pyStrip b)
    ∧ (okIntCore (pyStrip b) = true →
        (mkRecord i (pyStrip line)).year = some (intValCore (pyStrip b)))
    ∧ (okIntCore (pyStrip b) = false →
        (mkRecord i (pyStrip line)).year = none) := by
  have hrec : mkRecord i (pyStrip line)
      = ⟨toString i, pyStrip a, pyInt (pyStrip b), 0⟩ := mkRecord_some h
  refine ⟨findSep_eq_append h, findSep_first h, ?_, ?_, ?_, ?_⟩
  · rw [hrec]
  · rw [hrec]
  · intro hok
    rw [hrec]
    show pyInt (pyStrip b) = some (intValCore (pyStrip b))
    simp [pyInt, pyStrip_idem, hok]
  · intro hko
    rw [hrec]
    show pyInt (pyStrip b) = none
    simp [pyInt, pyStrip_idem, hko]

/-- Claim C1 witness: the amended claim applied to "Foo — 2_008". -/
theorem c1_sep_split_year_witness :
    (mkRecord 1 (pyStrip ("Foo — 2_008".toList))).title
      = pyStrip ("Foo".toList) :=
  (c1_sep_split_year 1 ("Foo — 2_008".toList) ("Foo".toList)
    ("2_008".toList) (by decide)).2.2.1

/-- Claim C2: every id equals the decimal string of the 1-based position
of its originating line counting blank lines, and the positions form a
strictly increasing sequence of positive integers in output order. -/
theorem c2_id_numbering (lines : List (List Char)) :
    (convert lines).map Record.id
      = (nonBlankPosFrom 1 lines).map (fun n => toString n)
    ∧ List.Pairwise (fun a b => a < b) (nonBlankPosFrom 1 lines)
    ∧ ∀ n ∈ nonBlankPosFrom 1 lines, 0 < n := by
  refine ⟨?_, nonBlankPos_pairwise lines 1, ?_⟩
  · rw [convert_eq_convertFrom]
    exact map_id_convertFrom lines 1
  · intro n hn
    exact Nat.lt_of_lt_of_le Nat.zero_lt_one (nonBlankPos_lb lines 1 n hn)

/-- Claim C3: the output has exactly one record per line that is
non-blank after stripping, in input order; whitespace-only lines
contribute no record but still consume a line number. -/
theorem c3_records_per_nonblank (lines : List (List Char)) :
    convert lines
      = ((enumFrom 1 lines).filter (fun p => !(pyStrip p.2).isEmpty)).map
          (fun p => mkRecord p.1 (pyStrip p.2))
    ∧ (convert lines).length = lines.countP (fun l => !(pyStrip l).isEmpty) := by
  constructor
  · rw [convert_eq_convertFrom]
    exact convertFrom_enum lines 1
  · rw [convert_eq_convertFrom]
    exact length_convertFrom lines 1

/-- Claim C4: a non-blank line without the separator produces a record
whose title is the full stripped line and whose year is null. -/
theorem c4_no_separator (i : Nat) (line : List Char)
    (_hne : pyStrip line ≠ []) (h : findSep (pyStrip line) = none) :
    (mkRecord i (pyStrip line)).title = pyStrip line
    ∧ (mkRecord i (pyStrip line)).year = none := by
  have hrec : mkRecord i (pyStrip line)
      = ⟨toString i, pyStrip line, none, 0⟩ := mkRecord_none h
  rw [hrec]
  exact ⟨rfl, rfl⟩

/-- Claim C4 witness: the claim applied to the line "Just A Title". -/
theorem c4_no_separator_witness :
    (mkRecord 2 (pyStrip ("Just A Title".toList))).title
        = pyStrip ("Just A Title".toList)
    ∧ (mkRecord 2 (pyStrip ("Just A Title".toList))).year = none :=
  c4_no_separator 2 ("Just A Title".toList) (by decide) (by decide)

/-- Claim C5: the four-line example input yields exactly the three
records with ids "1", "2", "4", titles "Breaking Bad", "The Wire",
"Chernobyl", years 2008, null, null, and rating 0, in that order. -/
theorem c5_example_end_to_end :
    convert ["Breaking Bad — 2008".toList, "The Wire".toList, "".toList,
        "Chernobyl — miniseries".toList]
      = [⟨"1", "Breaking Bad".toList, some 2008, 0⟩,
         ⟨"2", "The Wire".toList, none, 0⟩,
         ⟨"4", "Chernobyl".toList, none, 0⟩] := by
  decide

/-- Claim C6: every record in the output has rating exactly 0, for every
input. -/
theorem c6_rating_zero (lines : List (List Char)) (r : Record)
    (h : r ∈ convert lines) : r.rating = 0 := by
  rw [convert_eq_convertFrom] at h
  exact rating_convertFrom lines 1 r h

/-- Claim C6 witness: the claim applied to a concrete run. -/
theorem c6_rating_zero_witness :
    (⟨"1", "The Wire".toList, none, 0⟩ : Record).rating = 0 :=
  c6_rating_zero ["The Wire".toList] _ (by decide)

/-- Claim C7: with the input source embedded as `Except`, a read failure
gives exit status 1 and no output at all, while a successful read gives
exit status 0 and the full record array. -/
theorem c7_atomic_run (e : String) (ls : List (List Char)) :
    run (Except.error e) = (1, none)
    ∧ run (Except.ok ls) = (0, some (convert ls)) :=
  ⟨rfl, rfl⟩

/-- Claim C8: the line-to-records transformation is deterministic and
depends only on the line sequence; the stateful loop is equivalent to a
pure structural recursion over the lines. -/
theorem c8_deterministic (lines₁ lines₂ : List (List Char))
    (h : lines₁ = lines₂) :
    convert lines₁ = convert lines₂
    ∧ convert lines₁ = convertFrom 1 lines₁ :=
  ⟨by rw [h], convert_eq_convertFrom lines₁⟩

/-- Claim C8 witness: the claim applied to a concrete run. -/
theorem c8_deterministic_witness :
    convert ["The Wire".toList] = convert ["The Wire".toList]
    ∧ convert ["The Wire".toList] = convertFrom 1 ["The Wire".toList] :=
  c8_deterministic ["The Wire".toList] ["The Wire".toList] rfl

/-- Claim C9: a line whose first separator occurrence is followed only by
whitespace is treated as having no separator: stripping removes the
separator's trailing space, so the record's title is the whole stripped
line, ending in " —", and year is null. -/
theorem c9_trailing_separator (i : Nat) (t w : List Char)
    (hw : ∀ c ∈ w, isPySpace c = true)
    (hfirst : findSep (t ++ [' ', '—']) = none)
    (ht : stripLeftL t ≠ []) :
    pyStrip (t ++ sepL ++ w) = stripLeftL t ++ [' ', '—']
    ∧ (mkRecord i (pyStrip (t ++ sepL ++ w))).title = pyStrip (t ++ sepL ++ w)
    ∧ (mkRecord i (pyStrip (t ++ sepL ++ w))).year = none := by
  have hstrip : pyStrip (t ++ sepL ++ w) = stripLeftL t ++ [' ', '—'] := by
    show stripRightL (stripLeftL (t ++ sepL ++ w)) = _
    rw [List.append_assoc, stripLeft_append ht (sepL ++ w),
      ← List.append_assoc, stripRight_ws_append hw]
    exact stripRight_sepL (stripLeftL t)
  have hnone : findSep (pyStrip (t ++ sepL ++ w)) = none := by
    rw [hstrip]
    cases hfs : findSep (stripLeftL t ++ [' ', '—']) with
    | none => rfl
    | some p =>
      obtain ⟨a, b⟩ := p
      have hsp := findSep_eq_append hfs
      exfalso
      exact findSep_none_no_occ hfirst (t.takeWhile isPySpace ++ a) b (by
        have e : t ++ [' ', '—']
            = t.takeWhile isPySpace ++ (stripLeftL t ++ [' ', '—']) := by
          simp only [stripLeftL]
          rw [← List.append_assoc, List.takeWhile_append_dropWhile]
        rw [e, hsp]
        simp [List.append_assoc])
  refine ⟨hstrip, ?_, ?_⟩
  · rw [mkRecord_none hnone]
  · rw [mkRecord_none hnone]

/-- Claim C9 witness: the claim applied to the raw line "Foo — ". -/
theorem c9_trailing_separator_witness :
    pyStrip ("Foo".toList ++ sepL ++ ([] : List Char))
        = stripLeftL ("Foo".toList) ++ [' ', '—']
    ∧ (mkRecord 1 (pyStrip ("Foo".toList ++ sepL ++ ([] : List Char)))).title
        = pyStrip ("Foo".toList ++ sepL ++ ([] : List Char))
    ∧ (mkRecord 1 (pyStrip ("Foo".toList ++ sepL ++ ([] : List Char)))).year
        = none :=
  c9_trailing_separator 1 ("Foo".toList) [] (by simp) (by decide) (by decide)

/-- Claim C10: every emitted record's title is a nonempty string. -/
theorem c10_title_nonempty (lines : List (List Char)) (r : Record)
    (h : r ∈ convert lines) : r.title ≠ [] := by
  rw [convert_eq_convertFrom] at h
  exact title_convertFrom lines 1 r h

/-- Claim C10 witness: the claim applied to a concrete run. -/
theorem c10_title_nonempty_witness :
    (⟨"1", "The Wire".toList, none, 0⟩ : Record).title ≠ [] :=
  c10_title_nonempty ["The Wire".toList] _ (by decide)

end ConvertSeries
